import Mathlib

/-!
Verification of the tigate CDC schema store and parallel dynamic stream.

Sources embedded:
- `logservice/schemastore` schema store orchestrator (drain loop
  `batchCommitAndUpdateWatermark`, `RegisterDispatcher`,
  `UnregisterDispatcher`, `handleResolvedDDLJob`, `fillSchemaName`,
  `createSchema`, `dropSchema`, `GetNextDDLEvent`).
- `logservice/schemastore` unsorted DDL cache (`addDDL`,
  `getSortedDDLEventBeforeTS`, `ddlEventLess`).
- `utils/dynstream/parallel_dynamic_stream.go` (`hash`, `In`, `Wake`,
  `AddPath`, `RemovePath`, `SetAreaSettings`, `Feedback`,
  `newParallelDynamicStream`).

Machine integers: `common.Ts` (uint64) is modelled as `Nat`, `int64`
fields (`job.Version`, ids) as `Int`.  No arithmetic in the embedded code
can overflow (only comparisons and copies are performed), so no `% 2^w`
reduction is needed.  Go maps are modelled as association lists,
`*btree.BTreeG[DDLEvent]` as a list strictly sorted by `CommitTS` (the
btree invariant for the `ddlEventLess` ordering).  `log.Fatal` /
`log.Panic` (process abort) is modelled as a distinguished outcome.
-/

/-- `common.DatabaseID` (int64). -/
abbrev DatabaseID := Int

/-- `common.TableID` (int64). -/
abbrev TableID := Int

/-- `common.DispatcherID`; only equality is used by the embedded code. -/
abbrev DispatcherID := Int

/-- `math.MaxUint64`, used as the `DeleteVersion` of a live database. -/
def maxUint64 : Nat := 2 ^ 64 - 1

/-- The `model.ActionType` values distinguished by `handleResolvedDDLJob`.
`other` stands for every action type handled by the `default` arm. -/
inductive ActionType where
  | createSchema
  | modifySchemaCharsetAndCollate
  | dropSchema
  | renameTables
  | createTables
  | createTable
  | createView
  | recoverTable
  | other
deriving DecidableEq, Repr

/-- Modelled from the spec: the fields of `model.Job` read by the schema
store (the `model.Job` type is external to the repository).  `Version` is
`job.Version` (int64), `FinishedTS` is `job.BinlogInfo.FinishedTS`
(uint64).  `decodeArgsOk` abstracts whether `job.DecodeArgs` succeeds in
the `RenameTables` arm. -/
structure Job where
  tp : ActionType
  SchemaID : DatabaseID
  TableID : TableID
  SchemaName : String
  Version : Int
  FinishedTS : Nat
  decodeArgsOk : Bool
deriving DecidableEq, Repr

/-- Modelled from the spec: `DDLEvent { job: DDLJob, commitTs: Ts }` (the
`DDLEvent` struct definition is not under `src/`; the drain loop and the
unsorted cache read exactly these two components). -/
structure DDLEvent where
  Job : Job
  CommitTS : Nat
deriving DecidableEq, Repr

/-- `ddlEventLess`: the btree ordering of the unsorted cache,
`a.CommitTS < b.CommitTS`. -/
def ddlEventLess (a b : DDLEvent) : Bool :=
  a.CommitTS < b.CommitTS

/-- The btree invariant of `unSortedDDLCache.ddlEvents`: the items, in
iteration (`Ascend`) order, are strictly sorted by `CommitTS`. -/
abbrev CacheSorted (cache : List DDLEvent) : Prop :=
  cache.Pairwise fun a b => a.CommitTS < b.CommitTS

/-- `btree.ReplaceOrInsert` on the cache's ordering: walks the items in
order, inserts the new event at its position, and reports `true` when an
item with the same `CommitTS` was already present (that item is
replaced). -/
def replaceOrInsert (cache : List DDLEvent) (ev : DDLEvent) :
    List DDLEvent × Bool :=
  match cache with
  | [] => ([ev], false)
  | x :: rest =>
    if ddlEventLess ev x then (ev :: x :: rest, false)
    else if ddlEventLess x ev then
      let r := replaceOrInsert rest ev
      (x :: r.1, r.2)
    else (ev :: rest, true)

/-- `unSortedDDLCache.addDDL`: inserts the event; a duplicated `CommitTS`
is `log.Fatal` ("commitTS conflict"), modelled as `none`. -/
def addDDL (cache : List DDLEvent) (ddlEvent : DDLEvent) :
    Option (List DDLEvent) :=
  let r := replaceOrInsert cache ddlEvent
  if r.2 then none else some r.1

/-- The `Ascend` phase of `getSortedDDLEventBeforeTS`: visit items in
ascending order, collect while `event.CommitTS <= ts`, stop at the first
item beyond `ts` (the callback returns `false` there). -/
def ascendCollect (cache : List DDLEvent) (ts : Nat) : List DDLEvent :=
  match cache with
  | [] => []
  | e :: rest =>
    if e.CommitTS ≤ ts then e :: ascendCollect rest ts else []

/-- `btree.Delete` keyed by the cache ordering: removes the (unique) item
whose `CommitTS` equals the given key. -/
def deleteByKey (cache : List DDLEvent) (k : Nat) : List DDLEvent :=
  match cache with
  | [] => []
  | e :: rest => if e.CommitTS = k then rest else e :: deleteByKey rest k

/-- `unSortedDDLCache.getSortedDDLEventBeforeTS`: collects the events
with `CommitTS <= ts` by an ascending scan, then deletes each collected
event from the tree; returns `(collected events, remaining cache)`. -/
def getSortedDDLEventBeforeTS (cache : List DDLEvent) (ts : Nat) :
    List DDLEvent × List DDLEvent :=
  let events := ascendCollect cache ts
  (events, events.foldl (fun c e => deleteByKey c e.CommitTS) cache)

theorem ascendCollect_eq_filter (cache : List DDLEvent) (ts : Nat)
    (h : CacheSorted cache) :
    ascendCollect cache ts = cache.filter (fun e => e.CommitTS ≤ ts) := by
  induction cache with
  | nil => rfl
  | cons a l ih =>
    rcases List.pairwise_cons.mp h with ⟨ha, hl⟩
    by_cases hle : a.CommitTS ≤ ts
    · simp [ascendCollect, hle, List.filter_cons, ih hl]
    · have hnone : ∀ b ∈ l, ¬ (b.CommitTS ≤ ts) := by
        intro b hb
        have hab : a.CommitTS < b.CommitTS := ha b hb
        omega
      simp only [ascendCollect, hle, if_false, List.filter_cons]
      rw [List.filter_eq_nil_iff.mpr (by simpa using hnone)]
      simp [hle]

theorem foldl_delete_eq_filter (cache : List DDLEvent) (ts : Nat)
    (h : CacheSorted cache) :
    (ascendCollect cache ts).foldl (fun c e => deleteByKey c e.CommitTS) cache
      = cache.filter (fun e => ts < e.CommitTS) := by
  induction cache with
  | nil => rfl
  | cons a l ih =>
    rcases List.pairwise_cons.mp h with ⟨ha, hl⟩
    by_cases hle : a.CommitTS ≤ ts
    · have hdel : deleteByKey (a :: l) a.CommitTS = l := by
        simp [deleteByKey]
      have hnlt : ¬ (ts < a.CommitTS) := by omega
      simp only [ascendCollect, hle, if_true, List.foldl_cons, hdel,
        List.filter_cons]
      simp only [hnlt, decide_eq_true_eq, if_neg, decide_eq_false hnlt,
        Bool.false_eq_true, if_false]
      exact ih hl
    · have hall : ∀ b ∈ l, ts < b.CommitTS := by
        intro b hb
        have hab : a.CommitTS < b.CommitTS := ha b hb
        omega
      have hts : ts < a.CommitTS := by omega
      simp only [ascendCollect, hle, if_false, List.foldl_nil,
        List.filter_cons]
      rw [List.filter_eq_self.mpr (by simpa using hall)]
      simp [hts]

/-- Go map lookup `m[k]` (second result of the comma-ok form). -/
def mapLookup {κ β : Type} [DecidableEq κ] : List (κ × β) → κ → Option β
  | [], _ => none
  | (k', v) :: rest, k => if k' = k then some v else mapLookup rest k

/-- Go map assignment `m[k] = v` (replaces an existing binding). -/
def mapInsert {κ β : Type} [DecidableEq κ] : List (κ × β) → κ → β → List (κ × β)
  | [], k, v => [(k, v)]
  | (k', v') :: rest, k, v =>
    if k' = k then (k, v) :: rest else (k', v') :: mapInsert rest k v

/-- Go `delete(m, k)`. -/
def mapRemove {κ β : Type} [DecidableEq κ] : List (κ × β) → κ → List (κ × β)
  | [], _ => []
  | (k', v') :: rest, k =>
    if k' = k then mapRemove rest k else (k', v') :: mapRemove rest k

/-- `DatabaseInfo` as used by `fillSchemaName` / `createSchema` /
`dropSchema` (its declaration is in a schema-store file not under
`src/`; fields are exactly the ones those functions read and write, per
the spec's data model). -/
structure DatabaseInfo where
  Name : String
  Tables : List TableID
  CreateVersion : Nat
  DeleteVersion : Nat
deriving DecidableEq, Repr

/-- Modelled from the spec: `deleteVersion = +∞ while live`, so a
database is deleted exactly when its `DeleteVersion` moved below
`math.MaxUint64` (the `isDeleted` method body is not under `src/`). -/
def DatabaseInfo.isDeleted (d : DatabaseInfo) : Bool :=
  d.DeleteVersion != maxUint64

/-- Modelled from the spec: `VersionedTableInfoStore` state — an ordered
list of versions plus the registered-dispatcher map `dispatcherID →
sendTs` (the type's file is not under `src/`). -/
structure VersionedTableInfoStore where
  tableID : TableID
  versions : List Nat
  dispatchers : List (DispatcherID × Nat)
deriving DecidableEq, Repr

/-- `newEmptyVersionedTableInfoStore`. -/
def newEmptyVersionedTableInfoStore (tableID : TableID) :
    VersionedTableInfoStore :=
  { tableID := tableID, versions := [], dispatchers := [] }

/-- Modelled from the spec: `ApplyDDL(job)` appends a new version using
`job.binlogInfo.finishedTs`. -/
def VersionedTableInfoStore.applyDDL (s : VersionedTableInfoStore)
    (job : Job) : VersionedTableInfoStore :=
  { s with versions := s.versions ++ [job.FinishedTS] }

/-- Modelled from the spec: `RegisterDispatcher(id, startTs)` adds to the
dispatcher map (idempotent by id). -/
def VersionedTableInfoStore.registerDispatcher
    (s : VersionedTableInfoStore) (id : DispatcherID) (ts : Nat) :
    VersionedTableInfoStore :=
  { s with dispatchers := mapInsert s.dispatchers id ts }

/-- Modelled from the spec: `UnregisterDispatcher(id) → removed: bool`
removes the dispatcher and returns true iff the last dispatcher was
removed. -/
def VersionedTableInfoStore.unregisterDispatcher
    (s : VersionedTableInfoStore) (id : DispatcherID) :
    VersionedTableInfoStore × Bool :=
  let d := mapRemove s.dispatchers id
  ({ s with dispatchers := d }, d.isEmpty)

/-- Modelled from the spec: `FirstVersion() → Ts`, the smallest (first)
version held by the store; `0` for a store with no versions. -/
def VersionedTableInfoStore.getFirstVersion (s : VersionedTableInfoStore) :
    Nat :=
  s.versions.headD 0

/-- Modelled from the spec: `CheckAndCopyTailFrom(other)` copies from
`other` the already-applied tail (the versions beyond everything the
store already holds) without losing it. -/
def VersionedTableInfoStore.checkAndCopyTailFrom
    (s other : VersionedTableInfoStore) : VersionedTableInfoStore :=
  { s with versions :=
      (s.versions ++ other.versions.filter
        (fun v => s.versions.all (fun w => decide (w < v)))) }

/-- Modelled from the spec: `copyRegisteredDispatchers` transfers the
registered dispatchers of `other` into the store. -/
def VersionedTableInfoStore.copyRegisteredDispatchers
    (s other : VersionedTableInfoStore) : VersionedTableInfoStore :=
  { s with dispatchers :=
      other.dispatchers.foldl (fun m p => mapInsert m p.1 p.2) s.dispatchers }

/-- Modelled from the spec: the persistent storage state the schema store
reads — the GC floor and the log of DDL events, kept as
`(tableID, finishedTs)` pairs in log order (the `persistentStorage` type
is not under `src/`). -/
structure DataStorage where
  gcTS : Nat
  ddlLog : List (TableID × Nat)
deriving DecidableEq, Repr

/-- `persistentStorage.getGCTS` (spec: `GetGCTs() → Ts`). -/
def DataStorage.getGCTS (d : DataStorage) : Nat :=
  d.gcTS

/-- Modelled from the spec:
`BuildVersionedTableInfoStore(store, startTs, endTs, resolveSchemaName)`
replays logged DDLs with `startTs < finishedTs ≤ endTs` for the store's
table into the store. -/
def DataStorage.buildVersionedTableInfoStore (d : DataStorage)
    (store : VersionedTableInfoStore) (startTS endTS : Nat) :
    VersionedTableInfoStore :=
  { store with versions :=
      (store.versions ++
        (d.ddlLog.filter
          (fun p => decide (p.1 = store.tableID ∧ startTS < p.2 ∧ p.2 ≤ endTS))).map
          (fun p => p.2)) }

/-- The mutex-guarded state of `schemaStore`, together with the data
storage it consults.  `dispatchersMap` maps a dispatcher to its
`DispatcherInfo.tableID` (the only `DispatcherInfo` field).  Durable
writes (`writeDDLEvent`, `updateStoreMeta`) are outside this in-memory
state. -/
structure SchemaStoreState where
  dataStorage : DataStorage
  finishedDDLTS : Nat
  schemaVersion : Int
  databaseMap : List (DatabaseID × DatabaseInfo)
  tableInfoStoreMap : List (TableID × VersionedTableInfoStore)
  dispatchersMap : List (DispatcherID × TableID)
deriving DecidableEq, Repr

/-- `fillSchemaName`: resolves `job.SchemaName` from the database map,
failing when the database is missing, not yet created at the job's
finished ts, or already deleted before it. -/
def fillSchemaName (job : Job)
    (databaseMap : List (DatabaseID × DatabaseInfo)) : Except String Job :=
  match mapLookup databaseMap job.SchemaID with
  | none => .error "database not found"
  | some databaseInfo =>
    if databaseInfo.CreateVersion > job.FinishedTS then
      .error "database is not created"
    else if databaseInfo.DeleteVersion < job.FinishedTS then
      .error "database is deleted"
    else .ok { job with SchemaName := databaseInfo.Name }

/-- `createSchema`: fails when the database id already exists, otherwise
inserts a `DatabaseInfo` with `CreateVersion = job.BinlogInfo.FinishedTS`
and `DeleteVersion = math.MaxUint64`. -/
def createSchema (job : Job)
    (databaseMap : List (DatabaseID × DatabaseInfo)) :
    Except String (List (DatabaseID × DatabaseInfo)) :=
  match mapLookup databaseMap job.SchemaID with
  | some _ => .error "database already exists"
  | none =>
    .ok (mapInsert databaseMap job.SchemaID
      { Name := job.SchemaName
        Tables := []
        CreateVersion := job.FinishedTS
        DeleteVersion := maxUint64 })

/-- `dropSchema`: fails when the database is missing or already deleted,
otherwise sets `DeleteVersion = job.BinlogInfo.FinishedTS`. -/
def dropSchema (job : Job)
    (databaseMap : List (DatabaseID × DatabaseInfo)) :
    Except String (List (DatabaseID × DatabaseInfo)) :=
  match mapLookup databaseMap job.SchemaID with
  | none => .error "database not found"
  | some databaseInfo =>
    if databaseInfo.isDeleted then .error "database is already deleted"
    else
      .ok (mapInsert databaseMap job.SchemaID
        { databaseInfo with DeleteVersion := job.FinishedTS })

/-- Outcome of `handleResolvedDDLJob`: a Go `nil` error, a non-nil error,
or a `log.Panic` (process abort). -/
inductive HandleOutcome where
  | ok (databaseMap : List (DatabaseID × DatabaseInfo))
      (tableInfoStoreMap : List (TableID × VersionedTableInfoStore))
  | fail (msg : String)
  | panicked
deriving DecidableEq, Repr

/-- `handleResolvedDDLJob`: fills the schema name first, then dispatches
on the job type.  The `RenameTables` arm only decodes the arguments (the
source falls through to `return nil` after decoding); the
`CreateTable`-family arm panics if the table already has a store; the
default arm applies the DDL to the table's store. -/
def handleResolvedDDLJob (job : Job)
    (databaseMap : List (DatabaseID × DatabaseInfo))
    (tableInfoStoreMap : List (TableID × VersionedTableInfoStore)) :
    HandleOutcome :=
  match fillSchemaName job databaseMap with
  | .error e => .fail e
  | .ok job =>
    match job.tp with
    | .createSchema =>
      match createSchema job databaseMap with
      | .error e => .fail e
      | .ok m => .ok m tableInfoStoreMap
    | .modifySchemaCharsetAndCollate => .ok databaseMap tableInfoStoreMap
    | .dropSchema =>
      match dropSchema job databaseMap with
      | .error e => .fail e
      | .ok m => .ok m tableInfoStoreMap
    | .renameTables =>
      if job.decodeArgsOk then .ok databaseMap tableInfoStoreMap
      else .fail "decode args failed"
    | .createTables | .createTable | .createView | .recoverTable =>
      match mapLookup tableInfoStoreMap job.TableID with
      | some _ => .panicked
      | none => .ok databaseMap tableInfoStoreMap
    | .other =>
      match mapLookup tableInfoStoreMap job.TableID with
      | none => .fail "table not found"
      | some store =>
        .ok databaseMap
          (mapInsert tableInfoStoreMap job.TableID (store.applyDDL job))

/-- How an iteration of the drain loop `batchCommitAndUpdateWatermark`
ends: normally, with a non-nil error returned from the loop, or with a
`log.Panic` abort. -/
inductive DrainStatus where
  | finished
  | failed (msg : String)
  | panicked
deriving DecidableEq, Repr

/-- The per-event loop inside the `common.Ts` arm of
`batchCommitAndUpdateWatermark`: each resolved event whose
`Job.Version <= schemaVersion` or `Job.BinlogInfo.FinishedTS <=
finishedDDLTS` is skipped (`log.Warn`, state untouched); otherwise
`handleResolvedDDLJob` runs, an error aborts the loop, and on success the
watermarks advance to the job's `Version` and `FinishedTS`.  Returns the
events actually applied, in order, with the final state and status. -/
def applyResolvedEvents :
    SchemaStoreState → List DDLEvent →
      List DDLEvent × SchemaStoreState × DrainStatus
  | st, [] => ([], st, .finished)
  | st, e :: rest =>
    if e.Job.Version ≤ st.schemaVersion ∨ e.Job.FinishedTS ≤ st.finishedDDLTS
    then applyResolvedEvents st rest
    else
      match handleResolvedDDLJob e.Job st.databaseMap st.tableInfoStoreMap with
      | .fail msg => ([], st, .failed msg)
      | .panicked => ([], st, .panicked)
      | .ok dbs stores =>
        let st' : SchemaStoreState :=
          { st with
            schemaVersion := e.Job.Version
            finishedDDLTS := e.Job.FinishedTS
            databaseMap := dbs
            tableInfoStoreMap := stores }
        let r := applyResolvedEvents st' rest
        (e :: r.1, r.2)

/-- The `common.Ts` arm of the drain loop: fetch the sorted prefix of the
unsorted cache up to the resolved ts; an empty batch is a no-op
(`continue`); otherwise apply the events (the durable `updateStoreMeta`
write that precedes the loop is outside the in-memory state).  Returns
(applied events, remaining cache, final state, status). -/
def handleResolvedTs (st : SchemaStoreState) (cache : List DDLEvent)
    (v : Nat) :
    List DDLEvent × List DDLEvent × SchemaStoreState × DrainStatus :=
  let fetched := getSortedDDLEventBeforeTS cache v
  if fetched.1.isEmpty then ([], fetched.2, st, .finished)
  else
    let r := applyResolvedEvents st fetched.1
    (r.1, fetched.2, r.2.1, r.2.2)

/-- Result of a schema-store API call that returns an error and may
mutate the store: `ok`/`err` carry the state after the call, `panicked`
models `log.Panic` / a nil-pointer dereference. -/
inductive OpResult where
  | ok (s : SchemaStoreState)
  | err (msg : String) (s : SchemaStoreState)
  | panicked
deriving DecidableEq, Repr

/-- `schemaStore.RegisterDispatcher`, sequentialised (single caller, no
concurrent GC): the entry GC check, dispatcher registration, then either
the build-new-store path or the existing-store path with its re-check of
the GC floor, the `oldStore` comparison and the tail/dispatcher merge.
The `initialized` latch waits are no-ops in a sequential run. -/
def RegisterDispatcher (s : SchemaStoreState) (dispatcherID : DispatcherID)
    (tableID : TableID) (startTS : Nat) : OpResult :=
  if startTS < s.dataStorage.getGCTS then .err "start ts is old than gc ts" s
  else
    let s1 := { s with
      dispatchersMap := mapInsert s.dispatchersMap dispatcherID tableID }
    match mapLookup s1.tableInfoStoreMap tableID with
    | none =>
      let store0 := (newEmptyVersionedTableInfoStore tableID).registerDispatcher
        dispatcherID startTS
      let endTS := s1.finishedDDLTS
      let store1 := s1.dataStorage.buildVersionedTableInfoStore store0 startTS endTS
      .ok { s1 with
        tableInfoStoreMap := mapInsert s1.tableInfoStoreMap tableID store1 }
    | some store =>
      let store' := store.registerDispatcher dispatcherID startTS
      let s2 := { s1 with
        tableInfoStoreMap := mapInsert s1.tableInfoStoreMap tableID store' }
      if store'.getFirstVersion ≤ startTS then .ok s2
      else
        let endTS := store'.getFirstVersion
        let newStore := s2.dataStorage.buildVersionedTableInfoStore
          (newEmptyVersionedTableInfoStore tableID) startTS endTS
        if startTS < s2.dataStorage.getGCTS then
          .err "start ts is old than gc ts" s2
        else
          match mapLookup s2.tableInfoStoreMap tableID with
          | none => .panicked
          | some oldStore =>
            if oldStore.getFirstVersion ≤ newStore.getFirstVersion then .ok s2
            else
              let merged := (newStore.checkAndCopyTailFrom oldStore).copyRegisteredDispatchers oldStore
              .ok { s2 with
                tableInfoStoreMap := mapInsert s2.tableInfoStoreMap tableID merged }

/-- `schemaStore.UnregisterDispatcher`: unknown dispatchers fail with
"dispatcher not found"; otherwise the dispatcher is deleted from
`dispatchersMap` and from its table's store, and the store is deleted
from `tableInfoStoreMap` when its last dispatcher was removed.  A missing
store for a registered dispatcher is a nil-pointer dereference in the
source, modelled as `panicked`. -/
def UnregisterDispatcher (s : SchemaStoreState)
    (dispatcherID : DispatcherID) : OpResult :=
  match mapLookup s.dispatchersMap dispatcherID with
  | none => .err "dispatcher not found" s
  | some tableID =>
    let dispatchers' := mapRemove s.dispatchersMap dispatcherID
    match mapLookup s.tableInfoStoreMap tableID with
    | none => .panicked
    | some store =>
      let r := store.unregisterDispatcher dispatcherID
      if r.2 then
        .ok { s with
          dispatchersMap := dispatchers'
          tableInfoStoreMap := mapRemove s.tableInfoStoreMap tableID }
      else
        .ok { s with
          dispatchersMap := dispatchers'
          tableInfoStoreMap := mapInsert s.tableInfoStoreMap tableID r.1 }

/-- `schemaStore.GetNextDDLEvent`: the source body is
`return nil, 0, nil` for every input. -/
def GetNextDDLEvent (s : SchemaStoreState) (dispatcherID : DispatcherID) :
    Option DDLEvent × Nat × Option String :=
  (none, 0, none)

/-- The fields of `dynstream.Option` read by
`newParallelDynamicStream`. -/
structure StreamOption where
  EnableMemoryControl : Bool
deriving DecidableEq, Repr

/-- `parallelDynamicStream`, with the `N` sub-streams of
`dynamicStreams` represented by their indices `0 .. streamCount-1` and
the shared feedback channel by `some capacity` (allocated) or `none`
(the Go nil channel, on which a receive blocks forever). -/
structure ParallelDynamicStream (P : Type) where
  pathHaser : P → Nat
  streamCount : Nat
  feedbackChan : Option Nat

/-- `newParallelDynamicStream`: allocates the shared feedback channel
with capacity 1024 only when `option.EnableMemoryControl` is set, and
appends `streamCount` sub-streams (each handed `s.feedbackChan`). -/
def newParallelDynamicStream {P : Type} (streamCount : Nat)
    (hasher : P → Nat) (option : StreamOption) : ParallelDynamicStream P :=
  { pathHaser := hasher
    streamCount := streamCount
    feedbackChan := if option.EnableMemoryControl then some 1024 else none }

/-- `parallelDynamicStream.hash` over the variadic `path ...P` argument:
an empty argument list panics ("no path"), a hash result `>=
len(dynamicStreams)` panics ("invalid hash result"); otherwise the index
of the selected sub-stream is returned.  Panics are modelled as
`none`. -/
def ParallelDynamicStream.hash {P : Type} (s : ParallelDynamicStream P)
    (path : List P) : Option Nat :=
  match path with
  | [] => none
  | p :: _ =>
    let index := s.pathHaser p
    if s.streamCount ≤ index then none else some index

/-- `parallelDynamicStream.In`: the index of the sub-stream whose `In()`
channel is returned. -/
def ParallelDynamicStream.In {P : Type} (s : ParallelDynamicStream P)
    (path : List P) : Option Nat :=
  s.hash path

/-- `parallelDynamicStream.Wake`: the index of the sub-stream whose
`Wake()` channel is returned. -/
def ParallelDynamicStream.Wake {P : Type} (s : ParallelDynamicStream P)
    (path : List P) : Option Nat :=
  s.hash path

/-- `parallelDynamicStream.Feedback`: returns the shared feedback
channel field as is. -/
def ParallelDynamicStream.Feedback {P : Type}
    (s : ParallelDynamicStream P) : Option Nat :=
  s.feedbackChan

/-- `parallelDynamicStream.AddPath`: the index of the sub-stream the
path is added to. -/
def ParallelDynamicStream.AddPath {P : Type} (s : ParallelDynamicStream P)
    (path : P) : Option Nat :=
  s.hash [path]

/-- `parallelDynamicStream.RemovePath`: the index of the sub-stream the
path is removed from. -/
def ParallelDynamicStream.RemovePath {P : Type}
    (s : ParallelDynamicStream P) (path : P) : Option Nat :=
  s.hash [path]

/-- `parallelDynamicStream.SetAreaSettings`: the indices of the
sub-streams the call is forwarded to — all of them, in order. -/
def ParallelDynamicStream.SetAreaSettings {P : Type}
    (s : ParallelDynamicStream P) : List Nat :=
  List.range s.streamCount

theorem mapLookup_mapRemove_self {κ β : Type} [DecidableEq κ]
    (m : List (κ × β)) (k : κ) : mapLookup (mapRemove m k) k = none := by
  induction m with
  | nil => rfl
  | cons p rest ih =>
    by_cases hk : p.1 = k
    · simpa [mapRemove, hk] using ih
    · simpa [mapRemove, mapLookup, hk] using ih

theorem mapLookup_mapInsert_self {κ β : Type} [DecidableEq κ]
    (m : List (κ × β)) (k : κ) (v : β) :
    mapLookup (mapInsert m k v) k = some v := by
  induction m with
  | nil => simp [mapInsert, mapLookup]
  | cons p rest ih =>
    by_cases hk : p.1 = k
    · simp [mapInsert, mapLookup, hk]
    · simpa [mapInsert, mapLookup, hk] using ih

theorem replaceOrInsert_cons_lt {x ev : DDLEvent} {rest : List DDLEvent}
    (hlt : ev.CommitTS < x.CommitTS) :
    replaceOrInsert (x :: rest) ev = (ev :: x :: rest, false) := by
  simp [replaceOrInsert, ddlEventLess, hlt]

theorem replaceOrInsert_cons_gt {x ev : DDLEvent} {rest : List DDLEvent}
    (hgt : x.CommitTS < ev.CommitTS) :
    replaceOrInsert (x :: rest) ev
      = (x :: (replaceOrInsert rest ev).1, (replaceOrInsert rest ev).2) := by
  have hnlt : ¬ (ev.CommitTS < x.CommitTS) := by omega
  simp [replaceOrInsert, ddlEventLess, hnlt, hgt]

theorem replaceOrInsert_cons_same {x ev : DDLEvent} {rest : List DDLEvent}
    (h1 : ¬ (ev.CommitTS < x.CommitTS)) (h2 : ¬ (x.CommitTS < ev.CommitTS)) :
    replaceOrInsert (x :: rest) ev = (ev :: rest, true) := by
  simp [replaceOrInsert, ddlEventLess, h1, h2]

theorem replaceOrInsert_dup_iff (cache : List DDLEvent) (ev : DDLEvent)
    (h : CacheSorted cache) :
    (replaceOrInsert cache ev).2 = true
      ↔ ∃ e ∈ cache, e.CommitTS = ev.CommitTS := by
  induction cache with
  | nil => simp [replaceOrInsert]
  | cons x rest ih =>
    rcases List.pairwise_cons.mp h with ⟨hx, hrest⟩
    rcases Nat.lt_trichotomy ev.CommitTS x.CommitTS with hlt | heq | hgt
    · have hne : ∀ e ∈ x :: rest, ¬ (e.CommitTS = ev.CommitTS) := by
        intro e he
        rcases List.mem_cons.mp he with rfl | he'
        · omega
        · have hxe : x.CommitTS < e.CommitTS := hx e he'
          omega
      rw [replaceOrInsert_cons_lt hlt]
      constructor
      · intro hfalse
        simp at hfalse
      · rintro ⟨e, he, heqc⟩
        exact absurd heqc (hne e he)
    · rw [replaceOrInsert_cons_same (by omega) (by omega)]
      constructor
      · intro _
        exact ⟨x, List.mem_cons_self x rest, heq.symm⟩
      · intro _
        rfl
    · rw [replaceOrInsert_cons_gt hgt]
      rw [show (x :: (replaceOrInsert rest ev).1, (replaceOrInsert rest ev).2).2
        = (replaceOrInsert rest ev).2 from rfl]
      rw [ih hrest]
      constructor
      · rintro ⟨e, he, heqc⟩
        exact ⟨e, List.mem_cons_of_mem x he, heqc⟩
      · rintro ⟨e, he, heqc⟩
        rcases List.mem_cons.mp he with rfl | he'
        · omega
        · exact ⟨e, he', heqc⟩

theorem replaceOrInsert_fresh (cache : List DDLEvent) (ev : DDLEvent)
    (h : CacheSorted cache) (hnd : ∀ e ∈ cache, e.CommitTS ≠ ev.CommitTS) :
    (replaceOrInsert cache ev).2 = false
    ∧ (∀ x, x ∈ (replaceOrInsert cache ev).1 ↔ x = ev ∨ x ∈ cache)
    ∧ CacheSorted (replaceOrInsert cache ev).1 := by
  induction cache with
  | nil =>
    refine ⟨rfl, ?_, ?_⟩
    · intro x
      simp [replaceOrInsert]
    · simp [replaceOrInsert]
  | cons x rest ih =>
    rcases List.pairwise_cons.mp h with ⟨hx, hrest⟩
    have hxne : x.CommitTS ≠ ev.CommitTS := hnd x (List.mem_cons_self x rest)
    rcases Nat.lt_trichotomy ev.CommitTS x.CommitTS with hlt | heq | hgt
    · rw [replaceOrInsert_cons_lt hlt]
      refine ⟨rfl, ?_, ?_⟩
      · intro y
        simp [or_assoc]
      · refine List.pairwise_cons.mpr ⟨?_, h⟩
        intro b hb
        rcases List.mem_cons.mp hb with rfl | hb'
        · exact hlt
        · have hxb : x.CommitTS < b.CommitTS := hx b hb'
          omega
    · exact absurd heq.symm hxne
    · have hnd' : ∀ e ∈ rest, e.CommitTS ≠ ev.CommitTS := by
        intro e he
        exact hnd e (List.mem_cons_of_mem x he)
      obtain ⟨ih1, ih2, ih3⟩ := ih hrest hnd'
      rw [replaceOrInsert_cons_gt hgt]
      refine ⟨ih1, ?_, ?_⟩
      · intro y
        simp only [List.mem_cons, ih2]
        tauto
      · refine List.pairwise_cons.mpr ⟨?_, ih3⟩
        intro b hb
        rcases (ih2 b).mp hb with rfl | hb'
        · exact hgt
        · exact hx b hb'

/-- Claim C5: for every timestamp `ts`, `getSortedDDLEventBeforeTS`
removes from a (sorted, per the btree invariant) cache and returns
exactly the events with `CommitTS ≤ ts`, in ascending `CommitTS` order,
and leaves exactly the events with `CommitTS > ts` in the cache. -/
theorem fetch_removes_exactly_events_before_ts (cache : List DDLEvent)
    (ts : Nat) (h : CacheSorted cache) :
    (getSortedDDLEventBeforeTS cache ts).1
        = cache.filter (fun e => e.CommitTS ≤ ts)
    ∧ (getSortedDDLEventBeforeTS cache ts).2
        = cache.filter (fun e => ts < e.CommitTS)
    ∧ CacheSorted (getSortedDDLEventBeforeTS cache ts).1 := by
  refine ⟨ascendCollect_eq_filter cache ts h,
    foldl_delete_eq_filter cache ts h, ?_⟩
  have h1 : (getSortedDDLEventBeforeTS cache ts).1 = ascendCollect cache ts :=
    rfl
  rw [h1, ascendCollect_eq_filter cache ts h]
  exact List.Pairwise.filter _ h

/-- An arbitrary table-scoped job used to build concrete cache events. -/
def demoJobA : Job :=
  { tp := .other, SchemaID := 1, TableID := 2, SchemaName := "",
    Version := 1, FinishedTS := 10, decodeArgsOk := true }

/-- A concrete cache event with the given commit ts. -/
def demoEv (c : Nat) : DDLEvent :=
  { Job := demoJobA, CommitTS := c }

/-- A concrete sorted cache. -/
def demoCache : List DDLEvent := [demoEv 10, demoEv 20, demoEv 30]

theorem fetch_removes_exactly_events_before_ts_witness :
    (getSortedDDLEventBeforeTS demoCache 20).1
        = demoCache.filter (fun e => e.CommitTS ≤ 20)
    ∧ (getSortedDDLEventBeforeTS demoCache 20).2
        = demoCache.filter (fun e => 20 < e.CommitTS) :=
  ⟨(fetch_removes_exactly_events_before_ts demoCache 20 (by decide)).1,
   (fetch_removes_exactly_events_before_ts demoCache 20 (by decide)).2.1⟩

/-- Claim C6: adding an event whose `CommitTS` equals that of a buffered
event is fatal (`none`); adding one with a fresh `CommitTS` inserts it
and leaves all previously buffered events in place (and keeps the cache
sorted). -/
theorem addDDL_duplicate_fatal_fresh_inserts (cache : List DDLEvent)
    (ev : DDLEvent) (h : CacheSorted cache) :
    ((∃ e ∈ cache, e.CommitTS = ev.CommitTS) → addDDL cache ev = none)
    ∧ ((∀ e ∈ cache, e.CommitTS ≠ ev.CommitTS) →
        ∃ c, addDDL cache ev = some c ∧ ev ∈ c ∧ (∀ x ∈ cache, x ∈ c)
          ∧ (∀ x ∈ c, x = ev ∨ x ∈ cache) ∧ CacheSorted c) := by
  constructor
  · intro hdup
    have hsnd := (replaceOrInsert_dup_iff cache ev h).mpr hdup
    simp [addDDL, hsnd]
  · intro hnd
    obtain ⟨hsnd, hmem, hsort⟩ := replaceOrInsert_fresh cache ev h hnd
    refine ⟨(replaceOrInsert cache ev).1, ?_, ?_, ?_, ?_, hsort⟩
    · simp [addDDL, hsnd]
    · exact (hmem ev).mpr (Or.inl rfl)
    · intro x hx
      exact (hmem x).mpr (Or.inr hx)
    · intro x hx
      exact (hmem x).mp hx

theorem addDDL_duplicate_fatal_fresh_inserts_witness :
    addDDL demoCache (demoEv 20) = none
    ∧ (∃ c, addDDL demoCache (demoEv 25) = some c ∧ demoEv 25 ∈ c
        ∧ (∀ x ∈ demoCache, x ∈ c)
        ∧ (∀ x ∈ c, x = demoEv 25 ∨ x ∈ demoCache) ∧ CacheSorted c) :=
  ⟨(addDDL_duplicate_fatal_fresh_inserts demoCache (demoEv 20)
      (by decide)).1 ⟨demoEv 20, by decide, rfl⟩,
   (addDDL_duplicate_fatal_fresh_inserts demoCache (demoEv 25)
      (by decide)).2 (by decide)⟩

/-- Claim C8 (code bug evidence): `GetNextDDLEvent` is an unimplemented
stub — for every store state and dispatcher it returns `(nil, 0, nil)`
and never yields a DDL event, contradicting the specified streaming
iteration of unconsumed DDLs. -/
theorem getNextDDLEvent_returns_nothing (s : SchemaStoreState)
    (dispatcherID : DispatcherID) :
    GetNextDDLEvent s dispatcherID = (none, 0, none) :=
  rfl

/-- Claim C9: `In`, `Wake`, `AddPath` and `RemovePath` all route a path
`p` to the same sub-stream index `pathHaser p` when it is within
`[0, streamCount)`, a hash result `≥ streamCount` panics (`none`), and
`SetAreaSettings` is forwarded to exactly the sub-streams
`0 .. streamCount - 1`. -/
theorem parallel_stream_ops_route_by_hash {P : Type}
    (s : ParallelDynamicStream P) (p : P) :
    (s.In [p] = s.AddPath p ∧ s.Wake [p] = s.AddPath p
      ∧ s.RemovePath p = s.AddPath p)
    ∧ (s.pathHaser p < s.streamCount → s.AddPath p = some (s.pathHaser p))
    ∧ (s.streamCount ≤ s.pathHaser p → s.AddPath p = none)
    ∧ (∀ i, i ∈ s.SetAreaSettings ↔ i < s.streamCount) := by
  refine ⟨⟨rfl, rfl, rfl⟩, ?_, ?_, ?_⟩
  · intro hlt
    have hn : ¬ (s.streamCount ≤ s.pathHaser p) := by omega
    simp [ParallelDynamicStream.AddPath, ParallelDynamicStream.hash, hn]
  · intro hge
    simp [ParallelDynamicStream.AddPath, ParallelDynamicStream.hash, hge]
  · intro i
    simp [ParallelDynamicStream.SetAreaSettings, List.mem_range]

/-- A concrete four-stream parallel dynamic stream over `Nat` paths. -/
def demoPDS : ParallelDynamicStream Nat :=
  newParallelDynamicStream 4 (fun p => p % 4) { EnableMemoryControl := true }

theorem parallel_stream_ops_route_by_hash_witness :
    demoPDS.AddPath 7 = some (demoPDS.pathHaser 7)
    ∧ (2 ∈ demoPDS.SetAreaSettings ↔ 2 < demoPDS.streamCount) :=
  ⟨(parallel_stream_ops_route_by_hash demoPDS 7).2.1 (by decide),
   (parallel_stream_ops_route_by_hash demoPDS 7).2.2.2 2⟩

/-- Claim C10: `newParallelDynamicStream` allocates the shared feedback
channel (capacity 1024) exactly when `EnableMemoryControl` is set;
otherwise `Feedback()` returns the nil channel (`none`), on which a Go
receive blocks forever. -/
theorem feedback_chan_allocated_iff_memory_control {P : Type} (n : Nat)
    (hasher : P → Nat) (opt : StreamOption) :
    (opt.EnableMemoryControl = true →
      (newParallelDynamicStream n hasher opt).Feedback = some 1024)
    ∧ (opt.EnableMemoryControl = false →
      (newParallelDynamicStream n hasher opt).Feedback = none) := by
  constructor <;> intro h <;>
    simp [newParallelDynamicStream, ParallelDynamicStream.Feedback, h]

theorem feedback_chan_allocated_iff_memory_control_witness :
    (newParallelDynamicStream 2 (fun p : Nat => p)
      { EnableMemoryControl := true }).Feedback = some 1024
    ∧ (newParallelDynamicStream 2 (fun p : Nat => p)
      { EnableMemoryControl := false }).Feedback = none :=
  ⟨(feedback_chan_allocated_iff_memory_control 2 (fun p : Nat => p)
      { EnableMemoryControl := true }).1 rfl,
   (feedback_chan_allocated_iff_memory_control 2 (fun p : Nat => p)
      { EnableMemoryControl := false }).2 rfl⟩

/-- A `CreateSchema` job for a schema id absent from the database map. -/
def c3Job : Job :=
  { tp := .createSchema, SchemaID := 1, TableID := 0, SchemaName := "",
    Version := 1, FinishedTS := 100, decodeArgsOk := true }

/-- Claim C3 (code bug evidence): `handleResolvedDDLJob` runs
`fillSchemaName` before dispatching on the job type, so a `CreateSchema`
job whose schema id is absent fails with "database not found" and
inserts nothing — even though the `createSchema` arm itself would
succeed on that input and insert a `DatabaseInfo` with
`CreateVersion = finishedTs` and `DeleteVersion = math.MaxUint64`. -/
theorem createSchema_job_rejected_as_database_not_found :
    handleResolvedDDLJob c3Job [] [] = .fail "database not found"
    ∧ createSchema c3Job []
        = .ok [(1, { Name := "", Tables := [], CreateVersion := 100,
                     DeleteVersion := maxUint64 })] :=
  ⟨rfl, rfl⟩

theorem applyResolvedEvents_skip (st : SchemaStoreState) (e : DDLEvent)
    (rest : List DDLEvent)
    (h : e.Job.Version ≤ st.schemaVersion ∨ e.Job.FinishedTS ≤ st.finishedDDLTS) :
    applyResolvedEvents st (e :: rest) = applyResolvedEvents st rest := by
  simp only [applyResolvedEvents]
  rw [if_pos h]

theorem applyResolvedEvents_apply (st : SchemaStoreState) (e : DDLEvent)
    (rest : List DDLEvent)
    (dbs : List (DatabaseID × DatabaseInfo))
    (stores : List (TableID × VersionedTableInfoStore))
    (hv : st.schemaVersion < e.Job.Version)
    (hf : st.finishedDDLTS < e.Job.FinishedTS)
    (hh : handleResolvedDDLJob e.Job st.databaseMap st.tableInfoStoreMap
      = .ok dbs stores) :
    applyResolvedEvents st (e :: rest)
      = ((e :: (applyResolvedEvents
            { st with
              schemaVersion := e.Job.Version
              finishedDDLTS := e.Job.FinishedTS
              databaseMap := dbs
              tableInfoStoreMap := stores } rest).1),
         (applyResolvedEvents
            { st with
              schemaVersion := e.Job.Version
              finishedDDLTS := e.Job.FinishedTS
              databaseMap := dbs
              tableInfoStoreMap := stores } rest).2) := by
  simp only [applyResolvedEvents]
  rw [if_neg (by omega), hh]

theorem applyResolvedEvents_applied_gt (events : List DDLEvent) :
    ∀ st : SchemaStoreState,
      (∀ e ∈ (applyResolvedEvents st events).1,
        st.finishedDDLTS < e.Job.FinishedTS ∧ st.schemaVersion < e.Job.Version)
      ∧ (applyResolvedEvents st events).1.Pairwise
          (fun a b => a.Job.FinishedTS < b.Job.FinishedTS
            ∧ a.Job.Version < b.Job.Version) := by
  induction events with
  | nil =>
    intro st
    simp [applyResolvedEvents]
  | cons e rest ih =>
    intro st
    by_cases hskip :
      e.Job.Version ≤ st.schemaVersion ∨ e.Job.FinishedTS ≤ st.finishedDDLTS
    · rw [applyResolvedEvents_skip st e rest hskip]
      exact ih st
    · have hv : st.schemaVersion < e.Job.Version := by omega
      have hf : st.finishedDDLTS < e.Job.FinishedTS := by omega
      rcases hh : handleResolvedDDLJob e.Job st.databaseMap st.tableInfoStoreMap
        with ⟨dbs, stores⟩ | ⟨msg⟩ | ⟨⟩
      · rw [applyResolvedEvents_apply st e rest dbs stores hv hf hh]
        obtain ⟨ihm, ihp⟩ := ih
          { st with
            schemaVersion := e.Job.Version
            finishedDDLTS := e.Job.FinishedTS
            databaseMap := dbs
            tableInfoStoreMap := stores }
        constructor
        · intro x hx
          rcases List.mem_cons.mp hx with rfl | hx'
          · exact ⟨hf, hv⟩
          · obtain ⟨hm1, hm2⟩ := ihm x hx'
            simp only at hm1 hm2
            exact ⟨by omega, by omega⟩
        · refine List.pairwise_cons.mpr ⟨?_, ihp⟩
          intro b hb
          obtain ⟨hm1, hm2⟩ := ihm b hb
          simp only at hm1 hm2
          exact ⟨hm1, hm2⟩
      · simp only [applyResolvedEvents]
        rw [if_neg (by omega), hh]
        simp
      · simp only [applyResolvedEvents]
        rw [if_neg (by omega), hh]
        simp

theorem applyResolvedEvents_monotone (events : List DDLEvent) :
    ∀ st : SchemaStoreState,
      st.finishedDDLTS ≤ (applyResolvedEvents st events).2.1.finishedDDLTS
      ∧ st.schemaVersion ≤ (applyResolvedEvents st events).2.1.schemaVersion := by
  induction events with
  | nil =>
    intro st
    simp [applyResolvedEvents]
  | cons e rest ih =>
    intro st
    by_cases hskip :
      e.Job.Version ≤ st.schemaVersion ∨ e.Job.FinishedTS ≤ st.finishedDDLTS
    · rw [applyResolvedEvents_skip st e rest hskip]
      exact ih st
    · have hv : st.schemaVersion < e.Job.Version := by omega
      have hf : st.finishedDDLTS < e.Job.FinishedTS := by omega
      rcases hh : handleResolvedDDLJob e.Job st.databaseMap st.tableInfoStoreMap
        with ⟨dbs, stores⟩ | ⟨msg⟩ | ⟨⟩
      · rw [applyResolvedEvents_apply st e rest dbs stores hv hf hh]
        obtain ⟨ih1, ih2⟩ := ih
          { st with
            schemaVersion := e.Job.Version
            finishedDDLTS := e.Job.FinishedTS
            databaseMap := dbs
            tableInfoStoreMap := stores }
        dsimp only at ih1 ih2 ⊢
        exact ⟨by omega, by omega⟩
      · simp only [applyResolvedEvents]
        rw [if_neg (by omega), hh]
        simp
      · simp only [applyResolvedEvents]
        rw [if_neg (by omega), hh]
        simp

theorem applyResolvedEvents_last_applied (events : List DDLEvent) :
    ∀ st : SchemaStoreState,
      ((applyResolvedEvents st events).1 = []
        ∧ (applyResolvedEvents st events).2.1 = st)
      ∨ (∃ e, (applyResolvedEvents st events).1.getLast? = some e
          ∧ (applyResolvedEvents st events).2.1.finishedDDLTS
              = e.Job.FinishedTS
          ∧ (applyResolvedEvents st events).2.1.schemaVersion
              = e.Job.Version) := by
  induction events with
  | nil =>
    intro st
    left
    simp [applyResolvedEvents]
  | cons e rest ih =>
    intro st
    by_cases hskip :
      e.Job.Version ≤ st.schemaVersion ∨ e.Job.FinishedTS ≤ st.finishedDDLTS
    · rw [applyResolvedEvents_skip st e rest hskip]
      exact ih st
    · have hv : st.schemaVersion < e.Job.Version := by omega
      have hf : st.finishedDDLTS < e.Job.FinishedTS := by omega
      rcases hh : handleResolvedDDLJob e.Job st.databaseMap st.tableInfoStoreMap
        with ⟨dbs, stores⟩ | ⟨msg⟩ | ⟨⟩
      · rw [applyResolvedEvents_apply st e rest dbs stores hv hf hh]
        rcases ih
          { st with
            schemaVersion := e.Job.Version
            finishedDDLTS := e.Job.FinishedTS
            databaseMap := dbs
            tableInfoStoreMap := stores } with ⟨h1, h2⟩ | ⟨x, hx1, hx2, hx3⟩
        · right
          refine ⟨e, ?_, ?_, ?_⟩
          · rw [h1]
            rfl
          · rw [h2]
          · rw [h2]
        · right
          refine ⟨x, ?_, hx2, hx3⟩
          rcases hne : (applyResolvedEvents
            { st with
              schemaVersion := e.Job.Version
              finishedDDLTS := e.Job.FinishedTS
              databaseMap := dbs
              tableInfoStoreMap := stores } rest).1 with _ | ⟨y, ys⟩
          · rw [hne] at hx1
            simp at hx1
          · rw [hne] at hx1
            dsimp only
            rw [List.getLast?_cons_cons]
            exact hx1
      · left
        simp only [applyResolvedEvents]
        rw [if_neg (by omega), hh]
        exact ⟨rfl, rfl⟩
      · left
        simp only [applyResolvedEvents]
        rw [if_neg (by omega), hh]
        exact ⟨rfl, rfl⟩

/-- The S3 scenario job for `(version, finishedTs)`: a schema-scoped
no-op DDL (`ModifySchemaCharsetAndCollate`) on schema 1. -/
def s3Job (v : Int) (fts : Nat) : Job :=
  { tp := .modifySchemaCharsetAndCollate, SchemaID := 1, TableID := 0,
    SchemaName := "", Version := v, FinishedTS := fts, decodeArgsOk := true }

/-- The S3 scenario store state: schema 1 live since ts 0, watermarks at
zero. -/
def s3InitState : SchemaStoreState :=
  { dataStorage := { gcTS := 0, ddlLog := [] }
    finishedDDLTS := 0
    schemaVersion := 0
    databaseMap := [(1, { Name := "test", Tables := [], CreateVersion := 0,
                          DeleteVersion := maxUint64 })]
    tableInfoStoreMap := []
    dispatchersMap := [] }

/-- The S3 scenario cache: DDLs submitted to the unsorted cache with
finishedTs (= commitTs) sequence 100, 90, 110, in that order. -/
def s3SubmittedCache : Option (List DDLEvent) :=
  (addDDL [] { Job := s3Job 2 100, CommitTS := 100 }).bind
    (fun c => (addDDL c { Job := s3Job 1 90, CommitTS := 90 }).bind
      (fun c => addDDL c { Job := s3Job 3 110, CommitTS := 110 }))

/-- Claim C1: in every resolved batch, the events actually applied are
strictly ascending in both `FinishedTS` and `Version` — hence in
ascending `(finishedTs, schemaVersion)` order; and in the S3 scenario
(DDLs submitted with finishedTs sequence 100, 90, 110 and resolved ts
advanced to 120) the application order is 90, 100, 110, the batch ends
without error and the final `finishedDDLTs` is 110. -/
theorem drain_batch_applies_in_ascending_order :
    (∀ (st : SchemaStoreState) (cache : List DDLEvent) (v : Nat),
      (handleResolvedTs st cache v).1.Pairwise
        (fun a b => a.Job.FinishedTS < b.Job.FinishedTS
          ∧ a.Job.Version < b.Job.Version))
    ∧ (∃ cache, s3SubmittedCache = some cache
        ∧ (handleResolvedTs s3InitState cache 120).1.map
            (fun e => e.Job.FinishedTS) = [90, 100, 110]
        ∧ (handleResolvedTs s3InitState cache 120).2.2.1.finishedDDLTS = 110
        ∧ (handleResolvedTs s3InitState cache 120).2.2.2 = .finished) := by
  constructor
  · intro st cache v
    simp only [handleResolvedTs]
    split
    · simp
    · exact (applyResolvedEvents_applied_gt
        (getSortedDDLEventBeforeTS cache v).1 st).2
  · exact ⟨[{ Job := s3Job 1 90, CommitTS := 90 },
            { Job := s3Job 2 100, CommitTS := 100 },
            { Job := s3Job 3 110, CommitTS := 110 }],
      by decide, by decide, by decide, by decide⟩

/-- Claim C2: across a drain-loop iteration the `finishedDDLTS` and
`schemaVersion` watermarks never decrease; an event whose job version is
`≤` the current `schemaVersion` is skipped with the state unchanged for
it; an applied job resumes the batch from watermarks set to exactly that
job's version and finishedTs; and the final watermarks equal the last
applied job's values (or are untouched when nothing was applied). -/
theorem watermarks_monotone_and_replays_skipped :
    (∀ (st : SchemaStoreState) (cache : List DDLEvent) (v : Nat),
      st.finishedDDLTS ≤ (handleResolvedTs st cache v).2.2.1.finishedDDLTS
      ∧ st.schemaVersion ≤ (handleResolvedTs st cache v).2.2.1.schemaVersion)
    ∧ (∀ (st : SchemaStoreState) (e : DDLEvent) (rest : List DDLEvent),
        e.Job.Version ≤ st.schemaVersion →
        applyResolvedEvents st (e :: rest) = applyResolvedEvents st rest)
    ∧ (∀ (st : SchemaStoreState) (e : DDLEvent) (rest : List DDLEvent)
        (dbs : List (DatabaseID × DatabaseInfo))
        (stores : List (TableID × VersionedTableInfoStore)),
        st.schemaVersion < e.Job.Version →
        st.finishedDDLTS < e.Job.FinishedTS →
        handleResolvedDDLJob e.Job st.databaseMap st.tableInfoStoreMap
          = .ok dbs stores →
        applyResolvedEvents st (e :: rest)
          = ((e :: (applyResolvedEvents
                { st with
                  schemaVersion := e.Job.Version
                  finishedDDLTS := e.Job.FinishedTS
                  databaseMap := dbs
                  tableInfoStoreMap := stores } rest).1),
             (applyResolvedEvents
                { st with
                  schemaVersion := e.Job.Version
                  finishedDDLTS := e.Job.FinishedTS
                  databaseMap := dbs
                  tableInfoStoreMap := stores } rest).2))
    ∧ (∀ (st : SchemaStoreState) (events : List DDLEvent),
        ((applyResolvedEvents st events).1 = []
          ∧ (applyResolvedEvents st events).2.1 = st)
        ∨ (∃ e, (applyResolvedEvents st events).1.getLast? = some e
            ∧ (applyResolvedEvents st events).2.1.finishedDDLTS
                = e.Job.FinishedTS
            ∧ (applyResolvedEvents st events).2.1.schemaVersion
                = e.Job.Version)) := by
  refine ⟨?_, ?_, ?_, ?_⟩
  · intro st cache v
    simp only [handleResolvedTs]
    split
    · simp
    · exact applyResolvedEvents_monotone (getSortedDDLEventBeforeTS cache v).1 st
  · intro st e rest h
    exact applyResolvedEvents_skip st e rest (Or.inl h)
  · intro st e rest dbs stores hv hf hh
    exact applyResolvedEvents_apply st e rest dbs stores hv hf hh
  · intro st events
    exact applyResolvedEvents_last_applied events st

theorem watermarks_monotone_and_replays_skipped_witness :
    applyResolvedEvents s3InitState [{ Job := s3Job 0 50, CommitTS := 50 }]
      = applyResolvedEvents s3InitState []
    ∧ (s3InitState.finishedDDLTS
        ≤ (handleResolvedTs s3InitState [] 10).2.2.1.finishedDDLTS
      ∧ s3InitState.schemaVersion
        ≤ (handleResolvedTs s3InitState [] 10).2.2.1.schemaVersion) :=
  ⟨watermarks_monotone_and_replays_skipped.2.1 s3InitState
      { Job := s3Job 0 50, CommitTS := 50 } [] (by decide),
   watermarks_monotone_and_replays_skipped.1 s3InitState [] 10⟩

/-- The S5 scenario store state: GC floor at ts 100, nothing else. -/
def gcDemoState : SchemaStoreState :=
  { dataStorage := { gcTS := 100, ddlLog := [] }
    finishedDDLTS := 200
    schemaVersion := 0
    databaseMap := []
    tableInfoStoreMap := []
    dispatchersMap := [] }

/-- Claim C4: `RegisterDispatcher` returns the TooOld error exactly for
`startTs` below the GC floor — any `startTs < gcTs` is rejected at entry
with the state unchanged, any `startTs ≥ gcTs` registration completes
without error (with the GC floor fixed for the duration of the call, as
in a sequential run); concretely with `gcTs = 100` a registration at 99
is rejected and one at 101 succeeds. -/
theorem registerDispatcher_too_old_iff_below_gcts :
    (∀ (s : SchemaStoreState) (id : DispatcherID) (tid : TableID) (ts : Nat),
      ts < s.dataStorage.getGCTS →
      RegisterDispatcher s id tid ts = .err "start ts is old than gc ts" s)
    ∧ (∀ (s : SchemaStoreState) (id : DispatcherID) (tid : TableID) (ts : Nat),
      s.dataStorage.getGCTS ≤ ts →
      ∃ s', RegisterDispatcher s id tid ts = .ok s')
    ∧ (RegisterDispatcher gcDemoState 1 7 99
        = .err "start ts is old than gc ts" gcDemoState
      ∧ ∃ s', RegisterDispatcher gcDemoState 1 7 101 = .ok s') := by
  refine ⟨?_, ?_, ?_, ?_⟩
  · intro s id tid ts h
    simp only [RegisterDispatcher]
    rw [if_pos h]
  · intro s id tid ts h
    simp only [RegisterDispatcher]
    rw [if_neg (by omega)]
    cases hm : mapLookup s.tableInfoStoreMap tid with
    | none => exact ⟨_, rfl⟩
    | some store =>
      dsimp only
      split
      · exact ⟨_, rfl⟩
      · rw [if_neg (by omega)]
        rw [mapLookup_mapInsert_self]
        dsimp only
        split
        · exact ⟨_, rfl⟩
        · exact ⟨_, rfl⟩
  · decide
  · exact ⟨_, rfl⟩

theorem registerDispatcher_too_old_iff_below_gcts_witness :
    RegisterDispatcher gcDemoState 2 8 50
      = .err "start ts is old than gc ts" gcDemoState :=
  registerDispatcher_too_old_iff_below_gcts.1 gcDemoState 2 8 50 (by decide)

/-- A store with a single registered dispatcher, for the C7 witness. -/
def unregDemoStore : VersionedTableInfoStore :=
  { tableID := 7, versions := [5], dispatchers := [(1, 5)] }

/-- A schema store state with dispatcher 1 registered on table 7. -/
def unregDemoState : SchemaStoreState :=
  { dataStorage := { gcTS := 0, ddlLog := [] }
    finishedDDLTS := 0
    schemaVersion := 0
    databaseMap := []
    tableInfoStoreMap := [(7, unregDemoStore)]
    dispatchersMap := [(1, 7)] }

/-- Claim C7: `UnregisterDispatcher` fails with "dispatcher not found"
and changes nothing for an unknown dispatcher; for a registered
dispatcher it removes it from `dispatchersMap` and from its table's
store, and the store is deleted from `tableInfoStoreMap` exactly when
the removed dispatcher was the last one registered on it. -/
theorem unregisterDispatcher_removes_and_deletes_empty_store :
    (∀ (s : SchemaStoreState) (id : DispatcherID),
      mapLookup s.dispatchersMap id = none →
      UnregisterDispatcher s id = .err "dispatcher not found" s)
    ∧ (∀ (s : SchemaStoreState) (id : DispatcherID) (tid : TableID)
        (store : VersionedTableInfoStore),
      mapLookup s.dispatchersMap id = some tid →
      mapLookup s.tableInfoStoreMap tid = some store →
      ∃ s', UnregisterDispatcher s id = .ok s'
        ∧ mapLookup s'.dispatchersMap id = none
        ∧ mapLookup s'.tableInfoStoreMap tid
            = (if (mapRemove store.dispatchers id).isEmpty then none
               else some { store with
                 dispatchers := mapRemove store.dispatchers id })) := by
  constructor
  · intro s id h
    simp [UnregisterDispatcher, h]
  · intro s id tid store hd hs
    simp only [UnregisterDispatcher, hd, hs,
      VersionedTableInfoStore.unregisterDispatcher]
    by_cases hemp : (mapRemove store.dispatchers id).isEmpty = true
    · rw [if_pos hemp]
      refine ⟨_, rfl, ?_, ?_⟩
      · exact mapLookup_mapRemove_self s.dispatchersMap id
      · rw [if_pos hemp]
        exact mapLookup_mapRemove_self s.tableInfoStoreMap tid
    · rw [if_neg hemp]
      refine ⟨_, rfl, ?_, ?_⟩
      · exact mapLookup_mapRemove_self s.dispatchersMap id
      · rw [if_neg hemp]
        exact mapLookup_mapInsert_self s.tableInfoStoreMap tid _

theorem unregisterDispatcher_removes_and_deletes_empty_store_witness :
    UnregisterDispatcher unregDemoState 2
      = .err "dispatcher not found" unregDemoState
    ∧ (∃ s', UnregisterDispatcher unregDemoState 1 = .ok s'
        ∧ mapLookup s'.dispatchersMap 1 = none
        ∧ mapLookup s'.tableInfoStoreMap 7
            = (if (mapRemove unregDemoStore.dispatchers 1).isEmpty then none
               else some { unregDemoStore with
                 dispatchers := mapRemove unregDemoStore.dispatchers 1 })) :=
  ⟨unregisterDispatcher_removes_and_deletes_empty_store.1 unregDemoState 2 rfl,
   unregisterDispatcher_removes_and_deletes_empty_store.2 unregDemoState 1 7
     unregDemoStore rfl rfl⟩
